import Mathlib

/-!
Shallow embedding of `src/hmwrk.py`, an in-memory contact manager
(names, 10-digit phones, DD.MM.YYYY birthdays, upcoming-birthday scan
with weekend-to-Monday shifting, and per-command error handling).

Dates are modelled by the proleptic Gregorian calendar exactly as
Python's `datetime.date` exposes it: `ordinal` is `date.toordinal`
(1 for 01.01.0001), `weekday` is `date.weekday` (Monday = 0), and
`mkDate` performs the validity check of the `date` constructor /
`date.replace`.  Strings are modelled over ASCII decimal digits.
-/

namespace Hmwrk

/-! ## Calendar arithmetic (Python `datetime.date`) -/

def isLeap (y : Nat) : Bool :=
  y % 4 == 0 && (y % 100 != 0 || y % 400 == 0)

def daysInMonth (y m : Nat) : Nat :=
  if m == 2 then (if isLeap y then 29 else 28)
  else if m == 4 || m == 6 || m == 9 || m == 11 then 30
  else 31

def daysBeforeMonth (y m : Nat) : Nat :=
  let f : Nat := if isLeap y then 1 else 0
  match m with
  | 1 => 0
  | 2 => 31
  | 3 => 59 + f
  | 4 => 90 + f
  | 5 => 120 + f
  | 6 => 151 + f
  | 7 => 181 + f
  | 8 => 212 + f
  | 9 => 243 + f
  | 10 => 273 + f
  | 11 => 304 + f
  | _ => 334 + f

def daysBeforeYear (y : Nat) : Nat :=
  365 * (y - 1) + (y - 1) / 4 + (y - 1) / 400 - (y - 1) / 100

structure PyDate where
  year : Nat
  month : Nat
  day : Nat
deriving DecidableEq, Repr

/-- `date.toordinal`: 01.01.0001 has ordinal 1. -/
def ordinal (dt : PyDate) : Nat :=
  daysBeforeYear dt.year + daysBeforeMonth dt.year dt.month + dt.day

/-- `date.weekday`: Monday = 0, ..., Sunday = 6. -/
def weekday (dt : PyDate) : Nat :=
  (ordinal dt + 6) % 7

def ValidDate (dt : PyDate) : Prop :=
  1 ≤ dt.year ∧ 1 ≤ dt.month ∧ dt.month ≤ 12 ∧ 1 ≤ dt.day ∧
    dt.day ≤ daysInMonth dt.year dt.month

instance (dt : PyDate) : Decidable (ValidDate dt) := by
  unfold ValidDate; infer_instance

/-- The validity check of the `date` constructor and `date.replace`. -/
def mkDate (y m d : Nat) : Option PyDate :=
  if 1 ≤ y ∧ 1 ≤ m ∧ m ≤ 12 ∧ 1 ≤ d ∧ d ≤ daysInMonth y m then
    some ⟨y, m, d⟩
  else none

/-- Python `date` comparison `<` (lexicographic on year, month, day). -/
def dateLt (a b : PyDate) : Bool :=
  a.year < b.year ||
    (a.year == b.year &&
      (a.month < b.month || (a.month == b.month && a.day < b.day)))

/-- Successor day; `d + timedelta(days=k)` is `k` iterations of this. -/
def nextDay (dt : PyDate) : PyDate :=
  if dt.day < daysInMonth dt.year dt.month then ⟨dt.year, dt.month, dt.day + 1⟩
  else if dt.month < 12 then ⟨dt.year, dt.month + 1, 1⟩
  else ⟨dt.year + 1, 1, 1⟩

/-! ## String helpers, `strftime`/`strptime` for the `%d.%m.%Y` format -/

def digitsToNat (l : List Char) : Nat :=
  l.foldl (fun a c => 10 * a + (c.toNat - 48)) 0

def pad2 (n : Nat) : String :=
  if n < 10 then "0" ++ toString n else toString n

def pad4 (n : Nat) : String :=
  if n < 10 then "000" ++ toString n
  else if n < 100 then "00" ++ toString n
  else if n < 1000 then "0" ++ toString n
  else toString n

/-- `date.strftime("%d.%m.%Y")`. -/
def fmtDate (dt : PyDate) : String :=
  pad2 dt.day ++ "." ++ pad2 dt.month ++ "." ++ pad4 dt.year

/-- Split a character list on the dot separators of the date format. -/
def splitDots : List Char → List (List Char)
  | [] => [[]]
  | c :: rest =>
    if c = '.' then [] :: splitDots rest
    else
      match splitDots rest with
      | g :: gs => (c :: g) :: gs
      | [] => [[c]]

/--
`datetime.strptime(s, "%d.%m.%Y")`, returning `(day, month, year)`:
day and month are 1 or 2 digits (day 1-31, month 1-12 by the pattern),
the year exactly 4 digits, nothing left over, and the triple must be a
valid calendar date (`MINYEAR = 1`, day within the month).
-/
def parseDMY (s : String) : Option (Nat × Nat × Nat) :=
  match splitDots s.toList with
  | [a, b, c] =>
    if 1 ≤ a.length && a.length ≤ 2 && a.all Char.isDigit &&
       1 ≤ b.length && b.length ≤ 2 && b.all Char.isDigit &&
       c.length == 4 && c.all Char.isDigit then
      let d := digitsToNat a
      let m := digitsToNat b
      let y := digitsToNat c
      if 1 ≤ d && d ≤ 31 && 1 ≤ m && m ≤ 12 && 1 ≤ y && d ≤ daysInMonth y m
      then some (d, m, y)
      else none
    else none
  | _ => none

/-! ## Field validation (`Phone.__init__`, `Birthday.__init__`) -/

/-- Python `str.isdigit` (ASCII scope): nonempty and all digits. -/
def pyIsDigit (s : String) : Bool :=
  s.length != 0 && s.toList.all Char.isDigit

/-- `Phone.__init__`: digits-only check, then the length-10 check. -/
def phoneNew (s : String) : Except String String :=
  if !pyIsDigit s then .error "Phone must contain only digits"
  else if s.length != 10 then .error "Phone must contain exactly 10 digits"
  else .ok s

/-- `Birthday.__init__`: `strptime` must succeed; the original string is
stored unchanged. -/
def birthdayNew (s : String) : Except String String :=
  match parseDMY s with
  | some _ => .ok s
  | none => .error "Birthday must be in DD.MM.YYYY format"

/-! ## Records and the address book -/

/-- A `Record`: a name, an ordered phone list, an optional birthday;
the wrapped field values are the raw strings they validate. -/
structure PyRecord where
  name : String
  phones : List String
  birthday : Option String
deriving DecidableEq, Repr

/-- `AddressBook.data`: an insertion-ordered mapping from name to record
(Python `dict` iteration order). -/
abbrev Book := List (String × PyRecord)

/-- `AddressBook.add_record`: upsert keyed by the record's name; an
existing key keeps its insertion position, a new key is appended. -/
def addRecord (book : Book) (r : PyRecord) : Book :=
  if book.any (fun p => p.1 == r.name) then
    book.map (fun p => if p.1 == r.name then (p.1, r) else p)
  else book ++ [(r.name, r)]

/-- `AddressBook.find`: exact-match lookup by name. -/
def findRecord (book : Book) (name : String) : Option PyRecord :=
  (book.find? (fun p => p.1 == name)).map Prod.snd

/-- In-place mutation of the record stored under `name` (Python records
are mutated through the reference held by the dict). -/
def updateAt (book : Book) (name : String) (r : PyRecord) : Book :=
  book.map (fun p => if p.1 == name then (p.1, r) else p)

/-- `Record.find_phone` composed with `list.index`: position of the
first phone equal by value, if any. -/
def findPhoneIdx (phones : List String) (p : String) : Option Nat :=
  match phones with
  | [] => none
  | q :: rest => if q == p then some 0 else (findPhoneIdx rest p).map (· + 1)

/-- `Record.add_phone`: validate, then append. -/
def addPhone (r : PyRecord) (p : String) : Except String PyRecord :=
  (phoneNew p).map (fun v => { r with phones := r.phones ++ [v] })

/-- `Record.edit_phone`: find the first match by value, validate the new
phone (wrapping its error message), and replace in place. -/
def editPhone (phones : List String) (oldp newp : String) :
    Except String (List String) :=
  match findPhoneIdx phones oldp with
  | none => .error "Phone not found"
  | some i =>
    match phoneNew newp with
    | .error e => .error ("Invalid new phone: " ++ e)
    | .ok v => .ok (phones.set i v)

/-! ## The upcoming-birthday scan (`AddressBook.get_upcoming_birthdays`) -/

/-- Weekend-to-Monday rule: Saturday occurrences shift by two days,
Sunday occurrences by one. -/
def weekendShift (c : PyDate) : PyDate :=
  if weekday c == 5 then nextDay (nextDay c)
  else if weekday c == 6 then nextDay c
  else c

/-- This year's occurrence of the parsed birthday, or next year's when
this year's has already passed; `none` models the `ValueError` raised
by `date.replace` (29 February in a non-leap target year). -/
def nextOccurrence (m d : Nat) (today : PyDate) : Option PyDate :=
  match mkDate today.year m d with
  | none => none
  | some c =>
    if dateLt c today then mkDate (today.year + 1) m d else some c

/-- The body of the scan loop for one record: `.ok none` when the record
is skipped, `.ok (some entry)` when it is reported, `.error` when the
iteration raises. -/
def entryOf (days : Int) (today : PyDate) (r : PyRecord) :
    Except String (Option (String × String)) :=
  match r.birthday with
  | none => .ok none
  | some bs =>
    match parseDMY bs with
    | none => .error "time data does not match format"
    | some (d, m, _) =>
      match nextOccurrence m d today with
      | none => .error "day is out of range for month"
      | some c =>
        let delta : Int := (ordinal c : Int) - (ordinal today : Int)
        if 0 ≤ delta ∧ delta ≤ days then
          .ok (some (r.name, fmtDate (weekendShift c)))
        else .ok none

/-- The entry a record contributes when the scan completes. -/
def entryOpt (days : Int) (today : PyDate) (r : PyRecord) :
    Option (String × String) :=
  match entryOf days today r with
  | .ok o => o
  | .error _ => none

/-- `AddressBook.get_upcoming_birthdays` with `datetime.now().date()`
made an explicit `today` parameter; entries are appended in directory
iteration order, and an exception abandons the whole scan. -/
def getUpcomingBirthdays (book : Book) (days : Int) (today : PyDate) :
    Except String (List (String × String)) :=
  match book with
  | [] => .ok []
  | p :: rest =>
    match entryOf days today p.2 with
    | .error e => .error e
    | .ok none => getUpcomingBirthdays rest days today
    | .ok (some ent) =>
      match getUpcomingBirthdays rest days today with
      | .error e => .error e
      | .ok tail => .ok (ent :: tail)

/-! ## Command handlers (`input_error`-wrapped; each returns the printed
message together with the resulting book state) -/

def pyQuote : String := (Char.ofNat 39).toString

/-- Python `str` of a list of strings, as interpolated by the `KeyError`
branch of `input_error` (the handler's first argument is the whole
argument list). -/
def pyStrList (xs : List String) : String :=
  "[" ++ String.intercalate ", " (xs.map (fun s => pyQuote ++ s ++ pyQuote)) ++ "]"

def notFoundMsg (args : List String) : String :=
  "Contact [" ++ pyStrList args ++ "] not found."

def usageAdd : String := "Invalid input. Usage: add [name] [phone]"

def usageChange : String :=
  "Invalid input. Usage: change [name] [old_phone] [new_phone]"

def usageAddBirthday : String :=
  "Invalid input. Usage: add-birthday [name] [DD.MM.YYYY]"

def usageShowBirthday : String := "Invalid input. Usage: show-birthday [name]"

def usagePhone : String := "Invalid input. Usage: phone [name]"

/-- The `add` handler: on a fresh name the record is only inserted after
the phone validates. -/
def addH (args : List String) (book : Book) : String × Book :=
  match args with
  | [name, ph] =>
    match findRecord book name with
    | some r =>
      match phoneNew ph with
      | .error e => (e, book)
      | .ok v =>
        ("Contact [" ++ name ++ "] added successfully.",
         updateAt book name { r with phones := r.phones ++ [v] })
    | none =>
      match phoneNew ph with
      | .error e => (e, book)
      | .ok v =>
        ("Contact [" ++ name ++ "] added successfully.",
         addRecord book ⟨name, [v], none⟩)
  | _ => (usageAdd, book)

/-- The `change` handler. -/
def changeH (args : List String) (book : Book) : String × Book :=
  match args with
  | [name, oldp, newp] =>
    match findRecord book name with
    | none => (notFoundMsg args, book)
    | some r =>
      match editPhone r.phones oldp newp with
      | .error e => (e, book)
      | .ok ps =>
        ("Phone for [" ++ name ++ "] updated successfully.",
         updateAt book name { r with phones := ps })
  | _ => (usageChange, book)

/-- The `add-birthday` handler: on a fresh name the empty record is
inserted *before* the birthday is validated. -/
def addBirthdayH (args : List String) (book : Book) : String × Book :=
  match args with
  | [name, bs] =>
    match findRecord book name with
    | some r =>
      match birthdayNew bs with
      | .error e => (e, book)
      | .ok v =>
        ("Birthday for [" ++ name ++ "] added successfully.",
         updateAt book name { r with birthday := some v })
    | none =>
      let book1 := addRecord book ⟨name, [], none⟩
      match birthdayNew bs with
      | .error e => (e, book1)
      | .ok v =>
        ("Birthday for [" ++ name ++ "] added successfully.",
         updateAt book1 name ⟨name, [], some v⟩)
  | _ => (usageAddBirthday, book)

/-- The `show-birthday` handler. -/
def showBirthdayH (args : List String) (book : Book) : String × Book :=
  match args with
  | [name] =>
    match findRecord book name with
    | none => (notFoundMsg args, book)
    | some r =>
      match r.birthday with
      | none => ("Birthday for [" ++ name ++ "] not found", book)
      | some b => (b, book)
  | _ => (usageShowBirthday, book)

/-- The `phone` handler (only `args[0]` is read; extras are ignored). -/
def phoneH (args : List String) (book : Book) : String × Book :=
  match args with
  | [] => (usagePhone, book)
  | name :: _ =>
    match findRecord book name with
    | none => ("No phones found for [" ++ name ++ "]", book)
    | some r =>
      if r.phones.isEmpty then ("No phones found for [" ++ name ++ "]", book)
      else ("[" ++ r.name ++ "]: " ++ String.intercalate ", " r.phones, book)

/-! ## Calendar lemmas -/

lemma one_le_daysInMonth (y m : Nat) : 1 ≤ daysInMonth y m := by
  unfold daysInMonth
  split
  · split <;> omega
  · split <;> omega

lemma isLeap_iff (y : Nat) :
    isLeap y = true ↔ (y % 4 = 0 ∧ (y % 100 ≠ 0 ∨ y % 400 = 0)) := by
  simp [isLeap]

lemma daysBeforeYear_succ (y : Nat) (hy : 1 ≤ y) :
    daysBeforeYear (y + 1) =
      daysBeforeYear y + (if isLeap y then 366 else 365) := by
  obtain ⟨k, rfl⟩ : ∃ k, y = k + 1 := ⟨y - 1, by omega⟩
  have h4 := Nat.succ_div k 4
  have h100 := Nat.succ_div k 100
  have h400 := Nat.succ_div k 400
  by_cases d4 : (k + 1) % 4 = 0 <;> by_cases d100 : (k + 1) % 100 = 0 <;>
    by_cases d400 : (k + 1) % 400 = 0 <;>
      simp only [daysBeforeYear, isLeap, Nat.add_sub_cancel,
        Nat.dvd_iff_mod_eq_zero] at * <;>
      simp_all <;> omega

lemma daysBeforeMonth_succ (y m : Nat) (h1 : 1 ≤ m) (h2 : m ≤ 11) :
    daysBeforeMonth y (m + 1) = daysBeforeMonth y m + daysInMonth y m := by
  interval_cases m <;>
    cases hL : isLeap y <;>
      simp [daysBeforeMonth, daysInMonth, hL]

lemma ordinal_nextDay (c : PyDate) (h : ValidDate c) :
    ordinal (nextDay c) = ordinal c + 1 := by
  obtain ⟨hy, hm1, hm2, hd1, hd2⟩ := h
  unfold nextDay ordinal
  split
  · simp; omega
  · split
    · rename_i hlt hm
      have hd : c.day = daysInMonth c.year c.month := by omega
      have := daysBeforeMonth_succ c.year c.month hm1 (by omega)
      simp [this]; omega
    · rename_i hlt hm
      have hm12 : c.month = 12 := by omega
      have hd : c.day = daysInMonth c.year c.month := by omega
      have hB := daysBeforeYear_succ c.year hy
      have hdim : daysInMonth c.year 12 = 31 := by simp [daysInMonth]
      cases hL : isLeap c.year <;>
        simp [hL, hm12, daysBeforeMonth] at * <;> omega

lemma validDate_nextDay (c : PyDate) (h : ValidDate c) :
    ValidDate (nextDay c) := by
  obtain ⟨hy, hm1, hm2, hd1, hd2⟩ := h
  unfold nextDay
  split
  · rename_i hlt
    exact ⟨hy, hm1, hm2, Nat.succ_le_succ (Nat.zero_le _), hlt⟩
  · split
    · rename_i hlt hm
      exact ⟨hy, Nat.succ_le_succ (Nat.zero_le _), hm,
        Nat.le_refl 1, one_le_daysInMonth c.year (c.month + 1)⟩
    · exact ⟨Nat.succ_le_succ (Nat.zero_le _), Nat.le_refl 1, Nat.le_add_left 1 11,
        Nat.le_refl 1, one_le_daysInMonth (c.year + 1) 1⟩

lemma mkDate_some (y m d : Nat) (c : PyDate) (h : mkDate y m d = some c) :
    c = ⟨y, m, d⟩ ∧ ValidDate c := by
  unfold mkDate at h
  split at h
  · cases h; exact ⟨rfl, by assumption⟩
  · cases h

lemma nextOccurrence_valid (m d : Nat) (today c : PyDate)
    (h : nextOccurrence m d today = some c) : ValidDate c := by
  unfold nextOccurrence at h
  cases h0 : mkDate today.year m d with
  | none => simp only [h0] at h; exact Option.noConfusion h
  | some c0 =>
    simp only [h0] at h
    split at h
    · exact (mkDate_some _ _ _ _ h).2
    · injection h with h
      subst h
      exact (mkDate_some _ _ _ _ h0).2

lemma weekday_nextDay (c : PyDate) (h : ValidDate c) :
    weekday (nextDay c) = (weekday c + 1) % 7 := by
  unfold weekday
  rw [ordinal_nextDay c h]
  omega



/-! ## Phone and book helper lemmas -/

def ValidPhone (p : String) : Prop :=
  p.length = 10 ∧ ∀ c ∈ p.toList, c.isDigit = true

lemma pyIsDigit_iff (s : String) :
    pyIsDigit s = true ↔ (s.length ≠ 0 ∧ ∀ c ∈ s.toList, c.isDigit = true) := by
  simp [pyIsDigit]

lemma phoneNew_ok (s v : String) (h : phoneNew s = .ok v) :
    v = s ∧ ValidPhone s := by
  unfold phoneNew at h
  split at h
  · exact Except.noConfusion h
  · split at h
    · exact Except.noConfusion h
    · rename_i h1 h2
      injection h with h
      refine ⟨h.symm, by simp at h2; omega, ?_⟩
      rw [Bool.not_eq_true] at h1
      have h1 : pyIsDigit s = true := by
        revert h1; cases pyIsDigit s <;> simp
      exact ((pyIsDigit_iff s).mp h1).2

lemma phoneNew_error_of_invalid (s : String)
    (h : ¬(s.length = 10 ∧ ∀ c ∈ s.toList, c.isDigit = true)) :
    ∃ e, phoneNew s = .error e := by
  unfold phoneNew
  split
  · exact ⟨_, rfl⟩
  · split
    · exact ⟨_, rfl⟩
    · rename_i h1 h2
      exfalso
      apply h
      rw [Bool.not_eq_true] at h1
      have h1 : pyIsDigit s = true := by
        revert h1; cases pyIsDigit s <;> simp
      exact ⟨by simp at h2; omega, ((pyIsDigit_iff s).mp h1).2⟩

lemma phoneNew_ok_of_valid (s : String)
    (h : s.length = 10 ∧ ∀ c ∈ s.toList, c.isDigit = true) :
    phoneNew s = .ok s := by
  unfold phoneNew
  have h1 : pyIsDigit s = true := (pyIsDigit_iff s).mpr ⟨by omega, h.2⟩
  rw [h1]
  simp [h.1]

lemma findRecord_cons (p : String × PyRecord) (book : Book) (n : String) :
    findRecord (p :: book) n =
      if p.1 = n then some p.2 else findRecord book n := by
  unfold findRecord
  cases hb : p.1 == n with
  | true =>
    have h : p.1 = n := by simpa using hb
    simp [List.find?, hb, h]
  | false =>
    have h : ¬p.1 = n := by simpa using hb
    simp [List.find?, hb, h]

lemma updateAt_cons (p : String × PyRecord) (book : Book) (name : String)
    (r : PyRecord) :
    updateAt (p :: book) name r =
      (if p.1 = name then (p.1, r) else p) :: updateAt book name r := by
  by_cases h : p.1 = name <;> simp [updateAt, h]

lemma addRecord_eq (book : Book) (r : PyRecord) :
    addRecord book r =
      if book.any (fun p => p.1 == r.name) then updateAt book r.name r
      else book ++ [(r.name, r)] := rfl

lemma findRecord_updateAt_self (book : Book) (name : String) (r : PyRecord)
    (h : ∃ q ∈ book, q.1 = name) :
    findRecord (updateAt book name r) name = some r := by
  induction book with
  | nil => simp at h
  | cons p rest ih =>
    rw [updateAt_cons, findRecord_cons]
    by_cases hp : p.1 = name
    · rw [if_pos hp]
      simp [hp]
    · rw [if_neg hp, if_neg hp]
      apply ih
      rcases h with ⟨q, hq, hqn⟩
      rcases List.mem_cons.mp hq with rfl | hq
      · exact absurd hqn hp
      · exact ⟨q, hq, hqn⟩

lemma findRecord_updateAt_ne (book : Book) (name : String) (r : PyRecord)
    (n : String) (h : n ≠ name) :
    findRecord (updateAt book name r) n = findRecord book n := by
  have hnn : name ≠ n := fun hc => h hc.symm
  induction book with
  | nil => rfl
  | cons p rest ih =>
    rw [updateAt_cons, findRecord_cons, findRecord_cons]
    by_cases hp : p.1 = name
    · rw [if_pos hp]
      simp only [hp]
      rw [if_neg hnn, if_neg hnn]
      exact ih
    · rw [if_neg hp]
      by_cases hn : p.1 = n
      · rw [if_pos hn, if_pos hn]
      · rw [if_neg hn, if_neg hn]
        exact ih

lemma findRecord_append_single (book : Book) (k : String) (r : PyRecord)
    (n : String) (h : findRecord book n = none) :
    findRecord (book ++ [(k, r)]) n = if k = n then some r else none := by
  induction book with
  | nil => simp [findRecord_cons, findRecord]
  | cons p rest ih =>
    rw [findRecord_cons] at h
    rw [List.cons_append, findRecord_cons]
    by_cases hp : p.1 = n
    · rw [if_pos hp] at h; exact Option.noConfusion h
    · rw [if_neg hp] at h
      rw [if_neg hp]
      exact ih h

lemma findRecord_mem (book : Book) (n : String) (r : PyRecord)
    (h : findRecord book n = some r) : (n, r) ∈ book := by
  induction book with
  | nil => exact Option.noConfusion h
  | cons p rest ih =>
    rw [findRecord_cons] at h
    by_cases hp : p.1 = n
    · rw [if_pos hp] at h
      injection h with h
      have : p = (n, r) := by
        rcases p with ⟨a, b⟩
        simp only at hp h
        rw [hp, h]
      rw [← this]
      exact List.mem_cons_self p rest
    · rw [if_neg hp] at h
      exact List.mem_cons_of_mem _ (ih h)

lemma findRecord_none_not_mem (book : Book) (n : String)
    (h : findRecord book n = none) : ∀ p ∈ book, p.1 ≠ n := by
  induction book with
  | nil => simp
  | cons p rest ih =>
    rw [findRecord_cons] at h
    by_cases hp : p.1 = n
    · rw [if_pos hp] at h; exact Option.noConfusion h
    · rw [if_neg hp] at h
      intro q hq
      rcases List.mem_cons.mp hq with rfl | hq
      · exact hp
      · exact ih h q hq

lemma addRecord_of_not_mem (book : Book) (r : PyRecord)
    (h : findRecord book r.name = none) :
    addRecord book r = book ++ [(r.name, r)] := by
  rw [addRecord_eq]
  have hall := findRecord_none_not_mem book r.name h
  rw [if_neg]
  simp only [List.any_eq_true, not_exists]
  intro p hp
  rcases hp with ⟨hp, hcon⟩
  exact hall p hp (by simpa using hcon)

lemma findRecord_eq_none (book : Book) (n : String)
    (h : ∀ p ∈ book, p.1 ≠ n) : findRecord book n = none := by
  induction book with
  | nil => rfl
  | cons p rest ih =>
    rw [findRecord_cons]
    rw [if_neg (h p (List.mem_cons_self p rest))]
    exact ih (fun q hq => h q (List.mem_cons_of_mem _ hq))

lemma findRecord_append_of_some (book tail : Book) (n : String) (x : PyRecord)
    (hx : findRecord book n = some x) :
    findRecord (book ++ tail) n = some x := by
  induction book with
  | nil => exact Option.noConfusion hx
  | cons p rest ih =>
    rw [findRecord_cons] at hx
    rw [List.cons_append, findRecord_cons]
    by_cases hp : p.1 = n
    · rw [if_pos hp] at hx
      rw [if_pos hp, hx]
    · rw [if_neg hp] at hx
      rw [if_neg hp]
      exact ih hx

lemma findRecord_addRecord_self (book : Book) (r : PyRecord) :
    findRecord (addRecord book r) r.name = some r := by
  rw [addRecord_eq]
  split
  · rename_i hany
    apply findRecord_updateAt_self
    rcases List.any_eq_true.mp hany with ⟨q, hq, hqn⟩
    exact ⟨q, hq, by simpa using hqn⟩
  · rename_i hany
    have hnone : findRecord book r.name = none := by
      apply findRecord_eq_none
      intro p hp hc
      exact hany (List.any_eq_true.mpr ⟨p, hp, by simpa using hc⟩)
    rw [findRecord_append_single book r.name r r.name hnone]
    simp

lemma findRecord_addRecord_ne (book : Book) (r : PyRecord) (n : String)
    (h : n ≠ r.name) :
    findRecord (addRecord book r) n = findRecord book n := by
  rw [addRecord_eq]
  split
  · exact findRecord_updateAt_ne book r.name r n h
  · cases hn : findRecord book n with
    | none =>
      rw [findRecord_append_single book r.name r n hn,
        if_neg (fun hc => h hc.symm)]
    | some x => exact findRecord_append_of_some book _ n x hn



/-! ## Scan lemmas -/

lemma entryOf_birthday (days : Int) (today : PyDate) (r : PyRecord)
    (bs : String) (d m yy : Nat) (c : PyDate)
    (hb : r.birthday = some bs) (hp : parseDMY bs = some (d, m, yy))
    (hc : nextOccurrence m d today = some c) :
    entryOf days today r =
      if 0 ≤ (ordinal c : Int) - (ordinal today : Int) ∧
         (ordinal c : Int) - (ordinal today : Int) ≤ days then
        .ok (some (r.name, fmtDate (weekendShift c)))
      else .ok none := by
  unfold entryOf
  simp only [hb, hp, hc]

lemma scan_ok_eq (days : Int) (today : PyDate) (book : Book)
    (res : List (String × String))
    (h : getUpcomingBirthdays book days today = .ok res) :
    res = book.filterMap (fun p => entryOpt days today p.2) := by
  induction book generalizing res with
  | nil =>
    unfold getUpcomingBirthdays at h
    injection h with h
    rw [← h]
    rfl
  | cons p rest ih =>
    unfold getUpcomingBirthdays at h
    cases he : entryOf days today p.2 with
    | error e => rw [he] at h; exact Except.noConfusion h
    | ok o =>
      rw [he] at h
      cases o with
      | none =>
        rw [List.filterMap_cons]
        have hopt : entryOpt days today p.2 = none := by
          unfold entryOpt; rw [he]
        rw [hopt]
        exact ih res h
      | some ent =>
        cases hr : getUpcomingBirthdays rest days today with
        | error e => rw [hr] at h; exact Except.noConfusion h
        | ok tail =>
          rw [hr] at h
          injection h with h
          rw [List.filterMap_cons]
          have hopt : entryOpt days today p.2 = some ent := by
            unfold entryOpt; rw [he]
          rw [hopt, ← h]
          rw [ih tail hr]

/-! ## findPhoneIdx lemmas -/

lemma findPhoneIdx_none (phones : List String) (p : String)
    (h : findPhoneIdx phones p = none) : ∀ q ∈ phones, q ≠ p := by
  induction phones with
  | nil => simp
  | cons q rest ih =>
    unfold findPhoneIdx at h
    by_cases hq : q = p
    · simp [hq] at h
    · rw [if_neg (by simpa using hq)] at h
      intro x hx
      rcases List.mem_cons.mp hx with rfl | hx
      · exact hq
      · exact ih (by simpa using h) x hx

lemma findPhoneIdx_some (phones : List String) (p : String) (i : Nat)
    (h : findPhoneIdx phones p = some i) :
    i < phones.length ∧ phones[i]? = some p ∧
      ∀ j, j < i → phones[j]? ≠ some p := by
  induction phones generalizing i with
  | nil => exact Option.noConfusion h
  | cons q rest ih =>
    unfold findPhoneIdx at h
    by_cases hq : q = p
    · rw [if_pos (by simpa using hq)] at h
      injection h with h
      rw [← h]
      exact ⟨by simp, by simp [hq], by omega⟩
    · rw [if_neg (by simpa using hq)] at h
      cases hrest : findPhoneIdx rest p with
      | none => rw [hrest] at h; exact Option.noConfusion h
      | some i0 =>
        rw [hrest] at h
        simp only [Option.map_some'] at h
        injection h with h
        subst h
        obtain ⟨h1, h2, h3⟩ := ih i0 hrest
        refine ⟨by simp; omega, by simpa using h2, ?_⟩
        intro j hj
        cases j with
        | zero => simpa using hq
        | succ j0 =>
          have := h3 j0 (by omega)
          simpa using this



lemma daysInMonth_le (y m : Nat) : daysInMonth y m ≤ 31 := by
  unfold daysInMonth
  split
  · split <;> omega
  · split <;> omega

/-- The format the spec describes in its own words: day.month.year with a
2-digit day, 2-digit month, 4-digit year and valid calendar values.  Used
to compare the spec's statement with the implementation's parser. -/
def specStrictDMY (s : String) : Bool :=
  match splitDots s.toList with
  | [a, b, c] =>
    a.length == 2 && a.all Char.isDigit &&
    b.length == 2 && b.all Char.isDigit &&
    c.length == 4 && c.all Char.isDigit &&
    1 ≤ digitsToNat a && 1 ≤ digitsToNat b && digitsToNat b ≤ 12 &&
    1 ≤ digitsToNat c &&
    digitsToNat a ≤ daysInMonth (digitsToNat c) (digitsToNat b)
  | _ => false

lemma parseDMY_of_strict (s : String) (h : specStrictDMY s = true) :
    ∃ t, parseDMY s = some t := by
  unfold specStrictDMY at h
  unfold parseDMY
  rcases hsp : splitDots s.toList with _ | ⟨a, _ | ⟨b, _ | ⟨c, _ | ⟨x, l⟩⟩⟩⟩ <;>
    rw [hsp] at h <;> try exact Bool.noConfusion h
  simp only [Bool.and_eq_true, beq_iff_eq, decide_eq_true_eq,
    List.all_eq_true] at h
  obtain ⟨h, hdim⟩ := h
  obtain ⟨h, hdc⟩ := h
  obtain ⟨h, hdb2⟩ := h
  obtain ⟨h, hdb1⟩ := h
  obtain ⟨h, hda⟩ := h
  obtain ⟨h, hcd⟩ := h
  obtain ⟨h, hc4⟩ := h
  obtain ⟨h, hbd⟩ := h
  obtain ⟨h, hb2⟩ := h
  obtain ⟨ha2, had⟩ := h
  have hd31 : digitsToNat a ≤ 31 := le_trans hdim (daysInMonth_le _ _)
  dsimp only
  simp [List.all_eq_true, ha2, had, hb2, hbd, hc4, hcd, hda, hdb1, hdb2,
    hdc, hdim, hd31]
  exact ⟨⟨had, hbd⟩, hcd⟩

/-- C3: Phone construction succeeds exactly on 10-digit numeric strings
and fails with a validation error on every other string. -/
theorem phone_validation_exact (s : String) :
    ((∃ v, phoneNew s = .ok v) ↔
      (s.length = 10 ∧ ∀ c ∈ s.toList, c.isDigit = true))
    ∧ ((∃ e, phoneNew s = .error e) ↔
      ¬(s.length = 10 ∧ ∀ c ∈ s.toList, c.isDigit = true)) := by
  constructor
  · constructor
    · rintro ⟨v, hv⟩
      exact (phoneNew_ok s v hv).2
    · intro hvalid
      exact ⟨s, phoneNew_ok_of_valid s hvalid⟩
  · constructor
    · rintro ⟨e, he⟩ hvalid
      rw [phoneNew_ok_of_valid s hvalid] at he
      exact Except.noConfusion he
    · intro hinvalid
      exact phoneNew_error_of_invalid s hinvalid

theorem phone_validation_exact_witness :
    (∃ v, phoneNew "1234567890" = .ok v) ∧ (∃ e, phoneNew "12b4567890" = .error e) :=
  ⟨(phone_validation_exact "1234567890").1.mpr ⟨by decide, by decide⟩,
   (phone_validation_exact "12b4567890").2.mpr (by decide)⟩

/-- C4 counterexample: "1.1.2000" is not in the 2-digit day.month.year
format the claim describes, yet Birthday construction succeeds on it
(Python strptime accepts 1-digit day and month). -/
theorem birthday_strict_format_refuted :
    specStrictDMY "1.1.2000" = false ∧ birthdayNew "1.1.2000" = .ok "1.1.2000" := by
  constructor <;> rfl

/-- C4 (amended): Birthday construction succeeds exactly when the string
parses under the implementation's lenient day.month.year format (1- or
2-digit day and month, 4-digit year, valid calendar date); every accepted
string is stored verbatim, so in particular every strict 2-digit
DD.MM.YYYY string round-trips unchanged. -/
theorem birthday_parse_roundtrip (s : String) :
    ((∃ v, birthdayNew s = .ok v) ↔ (parseDMY s).isSome = true)
    ∧ (∀ v, birthdayNew s = .ok v → v = s)
    ∧ (specStrictDMY s = true → birthdayNew s = .ok s) := by
  refine ⟨⟨?_, ?_⟩, ?_, ?_⟩
  · rintro ⟨v, hv⟩
    unfold birthdayNew at hv
    cases hp : parseDMY s with
    | none => rw [hp] at hv; exact Except.noConfusion hv
    | some t => simp [hp]
  · intro hsome
    unfold birthdayNew
    cases hp : parseDMY s with
    | none => rw [hp] at hsome; exact Bool.noConfusion hsome
    | some t => exact ⟨s, rfl⟩
  · intro v hv
    unfold birthdayNew at hv
    cases hp : parseDMY s with
    | none => rw [hp] at hv; exact Except.noConfusion hv
    | some t =>
      rw [hp] at hv
      injection hv with hv
      exact hv.symm
  · intro hs
    obtain ⟨t, ht⟩ := parseDMY_of_strict s hs
    unfold birthdayNew
    rw [ht]

theorem birthday_parse_roundtrip_witness :
    birthdayNew "07.04.2001" = .ok "07.04.2001" :=
  (birthday_parse_roundtrip "07.04.2001").2.2 (by decide)

/-- C10: when the name is absent and the phone is invalid, the add
handler reports the validation error and the book is unchanged (the
fresh record is only inserted after the phone validates). -/
theorem add_handler_invalid_phone_no_insert (book : Book) (name ph e : String)
    (hfind : findRecord book name = none)
    (herr : phoneNew ph = .error e) :
    addH [name, ph] book = (e, book) := by
  unfold addH
  simp only [hfind, herr]

theorem add_handler_invalid_phone_no_insert_witness :
    addH ["Ann", "12"] [] = ("Phone must contain exactly 10 digits", []) :=
  add_handler_invalid_phone_no_insert [] "Ann" "12"
    "Phone must contain exactly 10 digits" rfl rfl

/-- C9: when the name is absent and the date is invalid, the add-birthday
handler reports the validation error but has already inserted a fresh
empty record (no phones, no birthday) under that name: the directory
grows on this error path. -/
theorem addBirthday_handler_invalid_date_inserts (book : Book)
    (name bs e : String)
    (hfind : findRecord book name = none)
    (herr : birthdayNew bs = .error e) :
    addBirthdayH [name, bs] book = (e, addRecord book ⟨name, [], none⟩)
    ∧ findRecord (addBirthdayH [name, bs] book).2 name = some ⟨name, [], none⟩
    ∧ ((addBirthdayH [name, bs] book).2).length = book.length + 1 := by
  have h1 : addBirthdayH [name, bs] book = (e, addRecord book ⟨name, [], none⟩) := by
    unfold addBirthdayH
    simp only [hfind, herr]
  refine ⟨h1, ?_, ?_⟩
  · rw [h1]
    exact findRecord_addRecord_self book ⟨name, [], none⟩
  · rw [h1]
    have := addRecord_of_not_mem book ⟨name, [], none⟩ hfind
    simp only [this]
    simp

theorem addBirthday_handler_invalid_date_inserts_witness :
    addBirthdayH ["Ann", "xx"] [] =
      ("Birthday must be in DD.MM.YYYY format", [("Ann", ⟨"Ann", [], none⟩)])
    ∧ findRecord (addBirthdayH ["Ann", "xx"] []).2 "Ann" = some ⟨"Ann", [], none⟩ := by
  have h := addBirthday_handler_invalid_date_inserts [] "Ann" "xx"
    "Birthday must be in DD.MM.YYYY format" rfl rfl
  exact ⟨h.1, h.2.1⟩



/-- C5: edit_phone replaces the first phone equal by value to `old` with
the freshly validated new phone at the same position, leaving all other
positions unchanged; when no phone matches it fails with "Phone not
found" and (at the change-handler level) the book is unchanged. -/
theorem editPhone_first_match_in_place (phones : List String)
    (oldp newp : String) :
    (findPhoneIdx phones oldp = none →
      editPhone phones oldp newp = .error "Phone not found")
    ∧ (∀ i, findPhoneIdx phones oldp = some i →
        phones[i]? = some oldp ∧ (∀ j, j < i → phones[j]? ≠ some oldp) ∧
        (phoneNew newp = .ok newp →
          editPhone phones oldp newp = .ok (phones.set i newp) ∧
          (phones.set i newp)[i]? = some newp ∧
          (phones.set i newp).length = phones.length ∧
          ∀ j, j ≠ i → (phones.set i newp)[j]? = phones[j]?) ∧
        (∀ e, phoneNew newp = .error e →
          editPhone phones oldp newp = .error ("Invalid new phone: " ++ e)))
    ∧ (∀ (book : Book) (name : String) (r : PyRecord),
        findRecord book name = some r →
        findPhoneIdx r.phones oldp = none →
        changeH [name, oldp, newp] book = ("Phone not found", book)) := by
  refine ⟨?_, ?_, ?_⟩
  · intro hnone
    unfold editPhone
    rw [hnone]
  · intro i hi
    obtain ⟨hlt, hat, hfirst⟩ := findPhoneIdx_some phones oldp i hi
    refine ⟨hat, hfirst, ?_, ?_⟩
    · intro hok
      have heq : editPhone phones oldp newp = .ok (phones.set i newp) := by
        unfold editPhone
        rw [hi, hok]
      refine ⟨heq, ?_, by simp, ?_⟩
      · exact List.getElem?_set_eq_of_lt newp hlt
      · intro j hj
        exact List.getElem?_set_ne (fun hc => hj hc.symm)
    · intro e he
      unfold editPhone
      rw [hi, he]
  · intro book name r hfindr hnone
    unfold changeH
    have hedit : editPhone r.phones oldp newp = .error "Phone not found" := by
      unfold editPhone
      rw [hnone]
    simp only [hfindr, hedit]

theorem editPhone_first_match_in_place_witness :
    editPhone ["1234567890", "0987654321"] "0987654321" "1111111111" =
      .ok ["1234567890", "1111111111"]
    ∧ changeH ["Ann", "7", "8"] [("Ann", ⟨"Ann", ["1234567890"], none⟩)] =
      ("Phone not found", [("Ann", ⟨"Ann", ["1234567890"], none⟩)]) := by
  constructor
  · exact (((editPhone_first_match_in_place ["1234567890", "0987654321"]
      "0987654321" "1111111111").2.1 1 rfl).2.2.1 rfl).1
  · exact (editPhone_first_match_in_place ["1234567890"] "7" "8").2.2
      [("Ann", ⟨"Ann", ["1234567890"], none⟩)] "Ann"
      ⟨"Ann", ["1234567890"], none⟩ rfl rfl

/-- C6: add_record is an upsert keyed exactly by the record name (the
new record is found under its name, all other names are unaffected), and
find is exact-match lookup: it returns none for any name that is not a
stored key, and anything it returns is stored under exactly the queried
name. -/
theorem addRecord_upsert_find_exact (book : Book) (r : PyRecord) :
    findRecord (addRecord book r) r.name = some r
    ∧ (∀ n, n ≠ r.name → findRecord (addRecord book r) n = findRecord book n)
    ∧ (∀ n, (∀ p ∈ book, p.1 ≠ n) → findRecord book n = none)
    ∧ (∀ n r2, findRecord book n = some r2 → (n, r2) ∈ book) :=
  ⟨findRecord_addRecord_self book r,
   fun n hn => findRecord_addRecord_ne book r n hn,
   fun n h => findRecord_eq_none book n h,
   fun n r2 h => findRecord_mem book n r2 h⟩

theorem addRecord_upsert_find_exact_witness :
    findRecord (addRecord [("Ann", ⟨"Ann", [], none⟩)] ⟨"Bob", [], none⟩) "Bob" =
      some ⟨"Bob", [], none⟩
    ∧ findRecord (addRecord [("Ann", ⟨"Ann", [], none⟩)] ⟨"Bob", [], none⟩) "Ann" =
      findRecord [("Ann", ⟨"Ann", [], none⟩)] "Ann"
    ∧ findRecord [("Ann", ⟨"Ann", [], none⟩)] "ann" = none := by
  refine ⟨(addRecord_upsert_find_exact [("Ann", ⟨"Ann", [], none⟩)] ⟨"Bob", [], none⟩).1,
    (addRecord_upsert_find_exact [("Ann", ⟨"Ann", [], none⟩)] ⟨"Bob", [], none⟩).2.1
      "Ann" (by decide),
    (addRecord_upsert_find_exact [("Ann", ⟨"Ann", [], none⟩)] ⟨"Bob", [], none⟩).2.2.1
      "ann" (by decide)⟩

/-- C1: when the scan completes, its result lists, in directory insertion
order, exactly the per-record entries; a record whose next occurrence is
exactly `days` days ahead of today is included (with its shifted date
string), and one exactly `days + 1` days ahead contributes no entry. -/
theorem upcoming_window_boundary (book : Book) (days : Int) (today : PyDate)
    (res : List (String × String))
    (hscan : getUpcomingBirthdays book days today = .ok res) :
    res = book.filterMap (fun p => entryOpt days today p.2)
    ∧ ∀ p ∈ book, ∀ bs d m yy c, p.2.birthday = some bs →
        parseDMY bs = some (d, m, yy) →
        nextOccurrence m d today = some c →
        (((ordinal c : Int) - (ordinal today : Int) = days → 0 ≤ days →
            (p.2.name, fmtDate (weekendShift c)) ∈ res)
         ∧ ((ordinal c : Int) - (ordinal today : Int) = days + 1 →
            entryOpt days today p.2 = none)) := by
  have hfm := scan_ok_eq days today book res hscan
  refine ⟨hfm, ?_⟩
  intro p hp bs d m yy c hb hpp hc
  have he := entryOf_birthday days today p.2 bs d m yy c hb hpp hc
  constructor
  · intro hδ hdays
    have hopt : entryOpt days today p.2 =
        some (p.2.name, fmtDate (weekendShift c)) := by
      unfold entryOpt
      rw [he, if_pos ⟨by omega, by omega⟩]
    rw [hfm]
    exact List.mem_filterMap.mpr ⟨p, hp, hopt⟩
  · intro hδ
    unfold entryOpt
    rw [he, if_neg]
    intro hcon
    omega

theorem upcoming_window_boundary_witness :
    ("Ann", "08.01.2024") ∈ [("Ann", "08.01.2024")] ∧
    entryOpt 7 ⟨2024, 1, 1⟩ ⟨"Bob", [], some "09.01.1990"⟩ = none := by
  have h := upcoming_window_boundary
    [("Ann", ⟨"Ann", [], some "08.01.1990"⟩), ("Bob", ⟨"Bob", [], some "09.01.1990"⟩)]
    7 ⟨2024, 1, 1⟩ [("Ann", "08.01.2024")] rfl
  refine ⟨?_, ?_⟩
  · have := (h.2 ("Ann", ⟨"Ann", [], some "08.01.1990"⟩) (by simp)
      "08.01.1990" 8 1 1990 ⟨2024, 1, 8⟩ rfl rfl rfl).1 (by decide) (by decide)
    simpa using this
  · exact (h.2 ("Bob", ⟨"Bob", [], some "09.01.1990"⟩) (by simp)
      "09.01.1990" 9 1 1990 ⟨2024, 1, 9⟩ rfl rfl rfl).2 (by decide)

/-- C2: an in-window occurrence falling on a Saturday is reported shifted
by exactly two days and one falling on a Sunday by exactly one day, in
both cases landing on a Monday; Monday-to-Friday occurrences are reported
unshifted. -/
theorem upcoming_weekend_to_monday (days : Int) (today : PyDate)
    (r : PyRecord) (bs : String) (d m yy : Nat) (c : PyDate) (nm ds : String)
    (hb : r.birthday = some bs)
    (hp : parseDMY bs = some (d, m, yy))
    (hc : nextOccurrence m d today = some c)
    (he : entryOf days today r = .ok (some (nm, ds))) :
    nm = r.name
    ∧ (weekday c = 5 →
        ordinal (nextDay (nextDay c)) = ordinal c + 2 ∧
        weekday (nextDay (nextDay c)) = 0 ∧
        ds = fmtDate (nextDay (nextDay c)))
    ∧ (weekday c = 6 →
        ordinal (nextDay c) = ordinal c + 1 ∧
        weekday (nextDay c) = 0 ∧
        ds = fmtDate (nextDay c))
    ∧ (weekday c ≤ 4 → ds = fmtDate c) := by
  have hcv : ValidDate c := nextOccurrence_valid m d today c hc
  have h1 : ordinal (nextDay c) = ordinal c + 1 := ordinal_nextDay c hcv
  have hv1 : ValidDate (nextDay c) := validDate_nextDay c hcv
  have h2 : ordinal (nextDay (nextDay c)) = ordinal (nextDay c) + 1 :=
    ordinal_nextDay _ hv1
  rw [entryOf_birthday days today r bs d m yy c hb hp hc] at he
  split at he
  · injection he with he
    injection he with he
    have he1 : nm = r.name := by
      have h := congrArg Prod.fst he
      simp only [] at h
      exact h.symm
    have he2 : ds = fmtDate (weekendShift c) := by
      have h := congrArg Prod.snd he
      simp only [] at h
      exact h.symm
    refine ⟨he1, ?_, ?_, ?_⟩
    · intro h5
      have hds : ds = fmtDate (nextDay (nextDay c)) := by
        rw [he2]
        unfold weekendShift
        rw [if_pos (by simp [h5])]
      refine ⟨by omega, ?_, hds⟩
      unfold weekday at h5 ⊢
      omega
    · intro h6
      have hds : ds = fmtDate (nextDay c) := by
        rw [he2]
        unfold weekendShift
        rw [if_neg (by simp [h6]), if_pos (by simp [h6])]
      refine ⟨h1, ?_, hds⟩
      unfold weekday at h6 ⊢
      omega
    · intro h4
      rw [he2]
      unfold weekendShift
      rw [if_neg (by simp; omega), if_neg (by simp; omega)]
  · injection he with he
    exact Option.noConfusion he

theorem upcoming_weekend_to_monday_witness :
    weekday ⟨2024, 1, 6⟩ = 5 ∧
    ordinal (nextDay (nextDay ⟨2024, 1, 6⟩)) = ordinal ⟨2024, 1, 6⟩ + 2 ∧
    weekday (nextDay (nextDay ⟨2024, 1, 6⟩)) = 0 ∧
    "08.01.2024" = fmtDate (nextDay (nextDay ⟨2024, 1, 6⟩)) := by
  have h := (upcoming_weekend_to_monday 7 ⟨2024, 1, 1⟩
    ⟨"Bob", [], some "06.01.1990"⟩ "06.01.1990" 6 1 1990 ⟨2024, 1, 6⟩
    "Bob" "08.01.2024" rfl rfl rfl rfl).2.1 (by decide)
  exact ⟨by decide, h⟩



/-- C7 counterexample: the change handler does not return the phone
validator's message verbatim; it prefixes it with "Invalid new phone: "
(the re-raise inside `Record.edit_phone`). -/
theorem handler_validator_message_not_verbatim :
    phoneNew "12" = .error "Phone must contain exactly 10 digits"
    ∧ (changeH ["Ann", "1234567890", "12"]
        [("Ann", ⟨"Ann", ["1234567890"], none⟩)]).1 =
      "Invalid new phone: Phone must contain exactly 10 digits"
    ∧ "Invalid new phone: Phone must contain exactly 10 digits" ≠
      "Phone must contain exactly 10 digits" := by
  refine ⟨rfl, rfl, ?_⟩
  decide

/-- C7 (amended): every handler failure is rendered as a returned
message: wrong argument counts yield the per-command usage string,
lookup misses yield the interpolated not-found string, and validation
failures are returned verbatim by the add and add-birthday handlers
while the change handler prefixes the new-phone validation message with
"Invalid new phone: "; in each case the book is left as the handler's
state at the failure point. -/
theorem handler_boundary_messages :
    (∀ (args : List String) (book : Book), args.length ≠ 2 →
      addH args book = (usageAdd, book))
    ∧ (∀ (args : List String) (book : Book), args.length ≠ 3 →
      changeH args book = (usageChange, book))
    ∧ (∀ (args : List String) (book : Book), args.length ≠ 2 →
      addBirthdayH args book = (usageAddBirthday, book))
    ∧ (∀ (args : List String) (book : Book), args.length ≠ 1 →
      showBirthdayH args book = (usageShowBirthday, book))
    ∧ (∀ (name ph e : String) (book : Book) (r : PyRecord),
        findRecord book name = some r → phoneNew ph = .error e →
        addH [name, ph] book = (e, book))
    ∧ (∀ (name bs e : String) (book : Book) (r : PyRecord),
        findRecord book name = some r → birthdayNew bs = .error e →
        addBirthdayH [name, bs] book = (e, book))
    ∧ (∀ (name oldp newp e : String) (book : Book) (r : PyRecord) (i : Nat),
        findRecord book name = some r →
        findPhoneIdx r.phones oldp = some i →
        phoneNew newp = .error e →
        changeH [name, oldp, newp] book = ("Invalid new phone: " ++ e, book))
    ∧ (∀ (name oldp newp : String) (book : Book),
        findRecord book name = none →
        changeH [name, oldp, newp] book =
          (notFoundMsg [name, oldp, newp], book))
    ∧ (∀ (name : String) (book : Book),
        findRecord book name = none →
        showBirthdayH [name] book = (notFoundMsg [name], book)) := by
  refine ⟨?_, ?_, ?_, ?_, ?_, ?_, ?_, ?_, ?_⟩
  · intro args book hlen
    rcases args with _ | ⟨a, _ | ⟨b, _ | ⟨x, l⟩⟩⟩
    · rfl
    · rfl
    · exact absurd rfl hlen
    · rfl
  · intro args book hlen
    rcases args with _ | ⟨a, _ | ⟨b, _ | ⟨x, _ | ⟨y, l⟩⟩⟩⟩
    · rfl
    · rfl
    · rfl
    · exact absurd rfl hlen
    · rfl
  · intro args book hlen
    rcases args with _ | ⟨a, _ | ⟨b, _ | ⟨x, l⟩⟩⟩
    · rfl
    · rfl
    · exact absurd rfl hlen
    · rfl
  · intro args book hlen
    rcases args with _ | ⟨a, _ | ⟨b, l⟩⟩
    · rfl
    · exact absurd rfl hlen
    · rfl
  · intro name ph e book r hf hp
    unfold addH
    simp only [hf, hp]
  · intro name bs e book r hf hb
    unfold addBirthdayH
    simp only [hf, hb]
  · intro name oldp newp e book r i hf hi hp
    have hedit : editPhone r.phones oldp newp =
        .error ("Invalid new phone: " ++ e) := by
      unfold editPhone
      rw [hi, hp]
    unfold changeH
    simp only [hf, hedit]
  · intro name oldp newp book hf
    unfold changeH
    simp only [hf]
  · intro name book hf
    unfold showBirthdayH
    simp only [hf]

theorem handler_boundary_messages_witness :
    addH ["Ann"] [] = (usageAdd, [])
    ∧ changeH ["Ann", "1234567890", "12"]
        [("Ann", ⟨"Ann", ["1234567890"], none⟩)] =
      ("Invalid new phone: Phone must contain exactly 10 digits",
       [("Ann", ⟨"Ann", ["1234567890"], none⟩)])
    ∧ showBirthdayH ["Bob"] [] = (notFoundMsg ["Bob"], []) := by
  refine ⟨handler_boundary_messages.1 ["Ann"] [] (by decide), ?_, ?_⟩
  · exact handler_boundary_messages.2.2.2.2.2.2.1 "Ann" "1234567890" "12"
      "Phone must contain exactly 10 digits"
      [("Ann", ⟨"Ann", ["1234567890"], none⟩)]
      ⟨"Ann", ["1234567890"], none⟩ 0 rfl rfl rfl
  · exact handler_boundary_messages.2.2.2.2.2.2.2.2 "Bob" [] rfl



/-- The reachable-state invariant: every phone stored anywhere in the
book is a 10-digit numeric string. -/
def BookInv (book : Book) : Prop :=
  ∀ p ∈ book, ∀ q ∈ p.2.phones, ValidPhone q

lemma bookInv_updateAt (book : Book) (name : String) (r : PyRecord)
    (hb : BookInv book) (hr : ∀ q ∈ r.phones, ValidPhone q) :
    BookInv (updateAt book name r) := by
  intro p hp
  unfold updateAt at hp
  rcases List.mem_map.mp hp with ⟨p0, hp0, rfl⟩
  by_cases hbq : p0.1 = name
  · simpa [hbq] using hr
  · simpa [hbq] using hb p0 hp0

lemma bookInv_addRecord (book : Book) (r : PyRecord)
    (hb : BookInv book) (hr : ∀ q ∈ r.phones, ValidPhone q) :
    BookInv (addRecord book r) := by
  rw [addRecord_eq]
  split
  · exact bookInv_updateAt book r.name r hb hr
  · intro p hp
    rcases List.mem_append.mp hp with hp | hp
    · exact hb p hp
    · have := List.mem_singleton.mp hp
      rw [this]
      exact hr

lemma editPhone_preserves_valid (phones : List String) (oldp newp : String)
    (ps : List String) (h : editPhone phones oldp newp = .ok ps)
    (hall : ∀ q ∈ phones, ValidPhone q) : ∀ q ∈ ps, ValidPhone q := by
  unfold editPhone at h
  cases hidx : findPhoneIdx phones oldp with
  | none => rw [hidx] at h; exact Except.noConfusion h
  | some i =>
    rw [hidx] at h
    cases hpn : phoneNew newp with
    | error e => rw [hpn] at h; exact Except.noConfusion h
    | ok v =>
      rw [hpn] at h
      injection h with h
      rw [← h]
      intro q hq
      rcases List.mem_or_eq_of_mem_set hq with hq | rfl
      · exact hall q hq
      · obtain ⟨rfl, hv⟩ := phoneNew_ok newp q hpn
        exact hv

/-- C8: the public mutating handlers preserve the invariant that every
stored phone is a 10-digit numeric string (they only insert freshly
validated phones), and the read-only handlers leave the book unchanged. -/
theorem handlers_preserve_phone_digits (book : Book) (args : List String)
    (h : BookInv book) :
    BookInv (addH args book).2 ∧ BookInv (changeH args book).2
    ∧ BookInv (addBirthdayH args book).2
    ∧ (showBirthdayH args book).2 = book ∧ (phoneH args book).2 = book := by
  refine ⟨?_, ?_, ?_, ?_, ?_⟩
  · rcases args with _ | ⟨name, _ | ⟨ph, _ | ⟨x, l⟩⟩⟩
    · exact h
    · exact h
    · unfold addH
      cases hf : findRecord book name with
      | some r =>
        cases hpn : phoneNew ph with
        | error e => simp only [hf, hpn]; exact h
        | ok v =>
          simp only [hf, hpn]
          apply bookInv_updateAt book name _ h
          intro q hq
          rcases List.mem_append.mp hq with hq | hq
          · exact h (name, r) (findRecord_mem book name r hf) q hq
          · have := List.mem_singleton.mp hq
            rw [this]
            obtain ⟨rfl, hv⟩ := phoneNew_ok ph v hpn
            exact hv
      | none =>
        cases hpn : phoneNew ph with
        | error e => simp only [hf, hpn]; exact h
        | ok v =>
          simp only [hf, hpn]
          apply bookInv_addRecord book _ h
          intro q hq
          have := List.mem_singleton.mp hq
          rw [this]
          obtain ⟨rfl, hv⟩ := phoneNew_ok ph v hpn
          exact hv
    · exact h
  · rcases args with _ | ⟨name, _ | ⟨oldp, _ | ⟨newp, _ | ⟨y, l⟩⟩⟩⟩
    · exact h
    · exact h
    · exact h
    · unfold changeH
      cases hf : findRecord book name with
      | none => simp only [hf]; exact h
      | some r =>
        cases hedit : editPhone r.phones oldp newp with
        | error e => simp only [hf, hedit]; exact h
        | ok ps =>
          simp only [hf, hedit]
          apply bookInv_updateAt book name _ h
          exact editPhone_preserves_valid r.phones oldp newp ps hedit
            (h (name, r) (findRecord_mem book name r hf))
    · exact h
  · rcases args with _ | ⟨name, _ | ⟨bs, _ | ⟨x, l⟩⟩⟩
    · exact h
    · exact h
    · unfold addBirthdayH
      cases hf : findRecord book name with
      | some r =>
        cases hbn : birthdayNew bs with
        | error e => simp only [hf, hbn]; exact h
        | ok v =>
          simp only [hf, hbn]
          apply bookInv_updateAt book name _ h
          intro q hq
          exact h (name, r) (findRecord_mem book name r hf) q hq
      | none =>
        have hb1 : BookInv (addRecord book ⟨name, [], none⟩) :=
          bookInv_addRecord book ⟨name, [], none⟩ h (by intro q hq; cases hq)
        cases hbn : birthdayNew bs with
        | error e => simp only [hf, hbn]; exact hb1
        | ok v =>
          simp only [hf, hbn]
          apply bookInv_updateAt _ name _ hb1
          intro q hq
          cases hq
    · exact h
  · rcases args with _ | ⟨name, _ | ⟨b, l⟩⟩
    · rfl
    · unfold showBirthdayH
      cases hf : findRecord book name with
      | none => simp only [hf]
      | some r =>
        cases hbd : r.birthday with
        | none => simp only [hf, hbd]
        | some v => simp only [hf, hbd]
    · rfl
  · rcases args with _ | ⟨name, l⟩
    · rfl
    · unfold phoneH
      cases hf : findRecord book name with
      | none => simp only [hf]
      | some r =>
        cases hemp : r.phones.isEmpty <;> simp only [hf, hemp] <;> rfl

theorem handlers_preserve_phone_digits_witness :
    BookInv (addH ["Ann", "1234567890"] []).2
    ∧ BookInv (changeH ["Ann", "1234567890", "0987654321"]
        (addH ["Ann", "1234567890"] []).2).2 := by
  have h0 : BookInv [] := by intro p hp; cases hp
  have h1 := (handlers_preserve_phone_digits [] ["Ann", "1234567890"] h0).1
  have h2 := (handlers_preserve_phone_digits (addH ["Ann", "1234567890"] []).2
    ["Ann", "1234567890", "0987654321"] h1).2.1
  exact ⟨h1, h2⟩


end Hmwrk
